import Mathlib

/-!
# Unplayer: `DirectoryTracksModel` and `DirectoryTracksProxyModel`

A shallow embedding of `src/directorytracksmodel.cpp`.

* `QString` is `String`; `int` is `Int`; `std::vector` / `QStringList` are `List`.
* `mFiles[index]`, `mFiles.erase(mFiles.begin() + index)` and `files.at(index)` are
  undefined (or throw) outside `0 ≤ index < size`; the embedding returns `none` there.
* Qt signals are recorded, oldest first, in the `emitted` field of the model.
* `QtConcurrent::run` plus a `QFutureWatcher` is a job that is put in flight
  (`scans`, `removals`) and whose `finished` handler runs later as a separate step.
* The file system (`QDir`, `QFile`, `QFileInfo`) and the SQL connection are explicit
  parameters of the worker that uses them.
-/

namespace Unplayer

/-! ## Data model -/

/-- The row type `DirectoryTrackFile { filePath, fileName, isDirectory, isPlaylist }`. -/
structure DirectoryTrackFile where
  filePath : String
  fileName : String
  isDirectory : Bool
  isPlaylist : Bool
deriving DecidableEq, Repr

/-- Signals emitted by the model (`emit ...`, `begin/endRemoveRows`, `begin/endInsertRows`). -/
inductive Signal where
  | directoryChanged
  | loadedChanged
  | removingFilesChanged
  | rowsRemoved (first last : Int)
  | rowsInserted (first last : Int)
  | databaseChanged
deriving DecidableEq, Repr

/-- A scan dispatched by `loadDirectory`: the two values captured by the lambda. -/
structure ScanJob where
  directory : String
  showVideoFiles : Bool
deriving DecidableEq, Repr

/-- A delete dispatched by `removeTracks`: the captured indexes, and (ghost) the
contents of `mFiles` at the moment of the dispatch. -/
structure RemoveJob where
  indexes : List Int
  filesAtDispatch : List DirectoryTrackFile
deriving DecidableEq, Repr

/-- Members of `DirectoryTracksModel`, the signals emitted so far, and the jobs whose
`finished` handler has not run yet. -/
structure DirectoryTracksModel where
  mDirectory : String
  mLoaded : Bool
  mRemovingFiles : Bool
  mShowVideoFiles : Bool
  mFiles : List DirectoryTrackFile
  emitted : List Signal
  scans : List ScanJob
  removals : List RemoveJob
deriving DecidableEq, Repr

/-- What `setDirectory` asks of Qt: `QDir::isReadable`, `QDir::absolutePath` and
`QStandardPaths::writableLocation(HomeLocation)`. -/
structure DirEnv where
  isReadable : String → Bool
  absolutePath : String → String
  homeLocation : String

/-- The facts of a `QFileInfo` that the scan lambda reads. -/
structure FileInfo where
  filePath : String
  fileName : String
  suffix : String
  isDir : Bool
deriving DecidableEq, Repr

/-- The classifier tables of `PlaylistUtils` / `LibraryUtils` and the MIME database
lookup `mimeDb.mimeTypeForFile(info, MatchExtension).name()`. -/
structure Classifier where
  mimeTypeForFile : FileInfo → String
  playlistsExtensions : List String
  mimeTypesByExtension : List String
  videoMimeTypesByExtension : List String

/-- The file system calls of the delete worker, over an explicit file system state:
`QFileInfo(path).isDir()`, `QDir(path).removeRecursively()`, `QFile::remove(path)`. -/
structure FileSystem (σ : Type) where
  isDir : σ → String → Bool
  removeRecursively : σ → String → Bool × σ
  removeFile : σ → String → Bool × σ

/-- The two prepared statements of the delete worker with their bound value. -/
inductive Statement where
  | deleteWhereInstr (bound : String)
  | deleteWhereEquals (bound : String)
deriving DecidableEq, Repr

/-- The SQL connection of the delete worker: whether `db.open()` succeeds, whether
`query.exec()` succeeds for a statement, and the `filePath` column of table `tracks`. -/
structure Database where
  opens : Bool
  execOk : Statement → Bool
  tracks : List String

/-- What the delete worker leaves behind: the returned vector `removed`, the file
system, the `tracks` table and the statements it executed, oldest first. -/
structure RemoveResult (σ : Type) where
  removed : List Int
  fs : σ
  tracks : List String
  issued : List Statement

/-- The part of `DirectoryTracksProxyModel` (and its base classes) that the code reads:
`rowCount()`, `sourceIndex(i)` for the visible rows, the selected proxy rows in
selection order, and the two counters. -/
structure DirectoryTracksProxyModel where
  rowCount : Nat
  sourceIndex : Nat → Int
  selection : List Nat
  mDirectoriesCount : Int
  mTracksCount : Int

/-! ## `DirectoryTracksModel` -/

/-- The element `mFiles[index]`; `none` outside the vector. -/
def fileAt (files : List DirectoryTrackFile) (index : Int) : Option DirectoryTrackFile :=
  if 0 ≤ index then files[index.toNat]? else none

/-- Modelled from the spec: the helper `contains(container, value)` of `stdutils.h`, which
is not part of the sources; it is the membership test behind "is a playlist" and
"a recognized audio (video) type". -/
def contains (container : List String) (value : String) : Bool :=
  container.contains value

/-- The path that `setDirectory` compares with `mDirectory`:
the home location when the directory is not readable, else its absolute path. -/
def resolveDirectory (env : DirEnv) (newDirectory : String) : String :=
  if !env.isReadable newDirectory then env.homeLocation else env.absolutePath newDirectory

/-- The synchronous part of `DirectoryTracksModel::loadDirectory`. -/
def loadDirectory (m : DirectoryTracksModel) : DirectoryTracksModel :=
  if m.mRemovingFiles then m
  else
    { m with
      mLoaded := false
      mFiles := []
      emitted := m.emitted ++
        [Signal.loadedChanged, Signal.rowsRemoved 0 ((m.mFiles.length : Int) - 1)]
      scans := m.scans ++ [{ directory := m.mDirectory, showVideoFiles := m.mShowVideoFiles }] }

/-- The method `DirectoryTracksModel::setDirectory`. -/
def setDirectory (env : DirEnv) (newDirectory : String) (m : DirectoryTracksModel) :
    DirectoryTracksModel :=
  let newDirectory := resolveDirectory env newDirectory
  if newDirectory != m.mDirectory then
    loadDirectory { m with mDirectory := newDirectory,
                           emitted := m.emitted ++ [Signal.directoryChanged] }
  else m

/-- One iteration of the scan lambda of `loadDirectory`. -/
def scanStep (c : Classifier) (showVideoFiles : Bool) (files : List DirectoryTrackFile)
    (info : FileInfo) : List DirectoryTrackFile :=
  if info.isDir then
    files ++ [{ filePath := info.filePath, fileName := info.fileName,
                isDirectory := true, isPlaylist := false }]
  else
    let mimeType := c.mimeTypeForFile info
    let isPlaylist := contains c.playlistsExtensions info.suffix
    if isPlaylist
        || contains c.mimeTypesByExtension mimeType
        || (showVideoFiles && contains c.videoMimeTypesByExtension mimeType) then
      files ++ [{ filePath := info.filePath, fileName := info.fileName,
                  isDirectory := false, isPlaylist := isPlaylist }]
    else files

/-- The scan lambda of `loadDirectory`, run on the list that
`QDir(directory).entryInfoList(Dirs | NoDotAndDotDot | Files | Readable)` returned. -/
def scanWorker (c : Classifier) (showVideoFiles : Bool) (fileInfos : List FileInfo) :
    List DirectoryTrackFile :=
  fileInfos.foldl (scanStep c showVideoFiles) []

/-- The `finished` handler of the scan watcher. -/
def scanFinished (files : List DirectoryTrackFile) (m : DirectoryTracksModel) :
    DirectoryTracksModel :=
  { m with
    mFiles := files
    mLoaded := true
    emitted := m.emitted ++
      [Signal.rowsInserted 0 ((files.length : Int) - 1), Signal.loadedChanged] }

/-- The synchronous part of `DirectoryTracksModel::removeTracks`. -/
def removeTracks (indexes : List Int) (m : DirectoryTracksModel) : DirectoryTracksModel :=
  if m.mRemovingFiles || !m.mLoaded then m
  else
    { m with
      mRemovingFiles := true
      emitted := m.emitted ++ [Signal.removingFilesChanged]
      removals := m.removals ++ [{ indexes := indexes, filesAtDispatch := m.mFiles }] }

/-- The call `std::sort(indexes.begin(), indexes.end(), std::greater<int>())`; the
sorted arrangement of a vector of `int` does not depend on the sorting algorithm. -/
def sortDescending (indexes : List Int) : List Int :=
  indexes.insertionSort (fun a b => a ≥ b)

/-- SQLite `instr(X, Y)` scanning `X` from position `pos`: the 1-based position of the
first occurrence of `Y`, or 0 when there is none. -/
def instrFrom (y : List Char) : List Char → Nat → Nat
  | [], pos => if y.isPrefixOf [] then pos else 0
  | c :: cs, pos => if y.isPrefixOf (c :: cs) then pos else instrFrom y cs (pos + 1)

/-- SQLite `instr(X, Y)`. -/
def instr (x y : String) : Nat :=
  instrFrom y.data x.data 1

/-- The `WHERE` clause of a statement, on the `filePath` of one row. -/
def Statement.selects : Statement → String → Bool
  | Statement.deleteWhereInstr bound, filePath => instr filePath bound == 1
  | Statement.deleteWhereEquals bound, filePath => filePath == bound

/-- A successful `query.exec()`: the rows selected by the `WHERE` clause are deleted. -/
def Statement.exec (st : Statement) (tracks : List String) : List String :=
  tracks.filter (fun row => !st.selects row)

/-- The statement that the delete worker prepares and binds after a successful
file system deletion of `filePath`. -/
def removalStatement (isDir : Bool) (filePath : String) : Statement :=
  if isDir then Statement.deleteWhereInstr (filePath ++ "/")
  else Statement.deleteWhereEquals filePath

/-- The `for (int index : indexes)` loop of the delete worker. -/
def removeLoop {σ : Type} (fs : FileSystem σ) (db : Database)
    (files : List DirectoryTrackFile) :
    List Int → RemoveResult σ → Option (RemoveResult σ)
  | [], r => some r
  | index :: rest, r =>
    match fileAt files index with
    | none => none
    | some file =>
      let filePath := file.filePath
      let isDir := fs.isDir r.fs filePath
      let outcome :=
        if isDir then fs.removeRecursively r.fs filePath else fs.removeFile r.fs filePath
      if !outcome.1 then
        removeLoop fs db files rest { r with fs := outcome.2 }
      else
        let query := removalStatement isDir filePath
        removeLoop fs db files rest
          { removed := r.removed ++ [index]
            fs := outcome.2
            tracks := if db.execOk query then query.exec r.tracks else r.tracks
            issued := r.issued ++ [query] }

/-- The worker lambda of `removeTracks`, reading `files` (the model's `mFiles`) and
starting from file system state `s`. -/
def removeWorker {σ : Type} (fs : FileSystem σ) (db : Database)
    (files : List DirectoryTrackFile) (s : σ) (indexes : List Int) :
    Option (RemoveResult σ) :=
  if !db.opens then
    some { removed := [], fs := s, tracks := db.tracks, issued := [] }
  else
    removeLoop fs db files (sortDescending indexes)
      { removed := [], fs := s, tracks := db.tracks, issued := [] }

/-- The `for (int index : watcher->result())` loop of the delete watcher's `finished`
handler, on the pair of `mFiles` and the emitted signals. -/
def eraseRows :
    List Int → List DirectoryTrackFile × List Signal →
      Option (List DirectoryTrackFile × List Signal)
  | [], st => some st
  | index :: rest, (files, emitted) =>
    if 0 ≤ index ∧ index < (files.length : Int) then
      eraseRows rest (files.eraseIdx index.toNat, emitted ++ [Signal.rowsRemoved index index])
    else none

/-- The `finished` handler of the delete watcher, `removed` being `watcher->result()`. -/
def removeFinished (removed : List Int) (m : DirectoryTracksModel) :
    Option DirectoryTracksModel :=
  match eraseRows removed (m.mFiles, m.emitted ++ [Signal.removingFilesChanged]) with
  | none => none
  | some (files, emitted) =>
    some { m with
           mRemovingFiles := false
           mFiles := files
           emitted := emitted ++ [Signal.databaseChanged] }

/-! ## The controller as a transition system -/

/-- The steps of the controller: the two public calls and the two `finished` handlers.
A completion names the job in flight that finishes and carries what its worker saw:
the directory listing for a scan, the returned vector for a delete. -/
inductive Event where
  | setDirectory (newDirectory : String)
  | scanComplete (job : Nat) (fileInfos : List FileInfo)
  | removeTracks (indexes : List Int)
  | deleteComplete (job : Nat) (removed : List Int)
deriving DecidableEq, Repr

/-- One step; `none` when the named job is not in flight or a row access is out of range. -/
def step (env : DirEnv) (c : Classifier) (m : DirectoryTracksModel) :
    Event → Option DirectoryTracksModel
  | Event.setDirectory newDirectory => some (setDirectory env newDirectory m)
  | Event.scanComplete job fileInfos =>
    match m.scans[job]? with
    | none => none
    | some scan =>
      some (scanFinished (scanWorker c scan.showVideoFiles fileInfos)
        { m with scans := m.scans.eraseIdx job })
  | Event.removeTracks indexes => some (removeTracks indexes m)
  | Event.deleteComplete job removed =>
    match m.removals[job]? with
    | none => none
    | some _ => removeFinished removed { m with removals := m.removals.eraseIdx job }

/-- A sequence of steps. -/
def run (env : DirEnv) (c : Classifier) :
    DirectoryTracksModel → List Event → Option DirectoryTracksModel
  | m, [] => some m
  | m, e :: es =>
    match step env c m e with
    | none => none
    | some m1 => run env c m1 es

/-- Modelled from the spec: the member initialisers of `DirectoryTracksModel` live in
`directorytracksmodel.h`, which is not part of the sources; a fresh model has an empty
directory path, an empty Entry Store, `loaded = false`, `removingFiles = false` and
nothing in flight. -/
def initialModel (showVideoFiles : Bool) : DirectoryTracksModel :=
  { mDirectory := "", mLoaded := false, mRemovingFiles := false,
    mShowVideoFiles := showVideoFiles, mFiles := [], emitted := [],
    scans := [], removals := [] }

/-! ## `DirectoryTracksProxyModel` -/

/-- The source indexes of the visible rows `0 .. rowCount() - 1`, in visible order. -/
def visibleRows (p : DirectoryTracksProxyModel) : List Int :=
  (List.range p.rowCount).map p.sourceIndex

/-- One iteration of the loop of `updateCount`, on `(mDirectoriesCount, mTracksCount)`;
`files.at(...)` throws outside the vector. -/
def updateCountStep (files : List DirectoryTrackFile) (sourceIndex : Nat → Int)
    (counts : Int × Int) (i : Nat) : Option (Int × Int) :=
  match fileAt files (sourceIndex i) with
  | none => none
  | some file =>
    if file.isDirectory then some (counts.1 + 1, counts.2) else some (counts.1, counts.2 + 1)

/-- The lambda `updateCount` of `DirectoryTracksProxyModel::componentComplete`. -/
def updateCount (files : List DirectoryTrackFile) (p : DirectoryTracksProxyModel) :
    Option DirectoryTracksProxyModel :=
  match (List.range p.rowCount).foldlM (updateCountStep files p.sourceIndex) (0, 0) with
  | none => none
  | some counts => some { p with mDirectoriesCount := counts.1, mTracksCount := counts.2 }

/-- The store `files` with exactly the entries at the positions listed in `removed`
taken out, all other entries in their original order: every entry is paired with its
position, and the pairs whose position is listed are dropped. -/
def withoutRows (files : List DirectoryTrackFile) (removed : List Int) :
    List DirectoryTrackFile :=
  (files.enum.filter (fun p => decide ((p.1 : Int) ∉ removed))).map Prod.snd

/-- Classifier Gateway: the child is a playlist. -/
def isPlaylistFile (c : Classifier) (info : FileInfo) : Bool :=
  contains c.playlistsExtensions info.suffix

/-- Classifier Gateway: the child has a recognized audio type. -/
def isAudioFile (c : Classifier) (info : FileInfo) : Bool :=
  contains c.mimeTypesByExtension (c.mimeTypeForFile info)

/-- Classifier Gateway: the child has a recognized video type. -/
def isVideoFile (c : Classifier) (info : FileInfo) : Bool :=
  contains c.videoMimeTypesByExtension (c.mimeTypeForFile info)

/-- The entry of one enumerated child in the words of the spec: a directory yields a
directory entry; any other child is kept, with its playlist classification, exactly when
it is a playlist, or audio, or video with `includeVideo`; else it is dropped. -/
def scanEntry (c : Classifier) (includeVideo : Bool) (info : FileInfo) :
    Option DirectoryTrackFile :=
  if info.isDir then
    some { filePath := info.filePath, fileName := info.fileName,
           isDirectory := true, isPlaylist := false }
  else if isPlaylistFile c info || isAudioFile c info
      || (includeVideo && isVideoFile c info) then
    some { filePath := info.filePath, fileName := info.fileName,
           isDirectory := false, isPlaylist := isPlaylistFile c info }
  else none

/-- The entry at source index `src` is a directory. -/
def rowIsDirectory (files : List DirectoryTrackFile) (src : Int) : Bool :=
  match fileAt files src with
  | some file => file.isDirectory
  | none => false

/-- The path of the entry at source index `src`. -/
def rowPath (files : List DirectoryTrackFile) (src : Int) : String :=
  match fileAt files src with
  | some file => file.filePath
  | none => ""

/-- One deletion attempted by the Delete Worker: the index of the entry, whether the file
system reported its path as a directory, and whether the deletion succeeded. -/
structure Attempt where
  index : Int
  isDir : Bool
  succeeded : Bool
deriving DecidableEq, Repr

/-- The Delete Worker in the words of the spec: the entries are taken in the order given,
one after the other; a directory is deleted recursively, a file by its single path, each
on the file system as the deletions before it left it, and whatever the outcome the
worker goes on with the rest. -/
def deletionAttempts {σ : Type} (fs : FileSystem σ) (files : List DirectoryTrackFile) :
    List Int → σ → List Attempt
  | [], _ => []
  | index :: rest, s =>
    let path := rowPath files index
    let isDir := fs.isDir s path
    let outcome := if isDir then fs.removeRecursively s path else fs.removeFile s path
    { index := index, isDir := isDir, succeeded := outcome.1 }
      :: deletionAttempts fs files rest outcome.2

/-! ## Sample data -/

/-- A small file system: the state lists the existing paths, each with its directory
flag; a file is removed when it exists, a directory with everything below it. -/
def sampleFs : FileSystem (List (String × Bool)) :=
  { isDir := fun s path => s.contains (path, true)
    removeRecursively := fun s path =>
      (true, s.filter (fun e => !(e.1 == path) && !(path ++ "/").data.isPrefixOf e.1.data))
    removeFile := fun s path =>
      if s.contains (path, false) then (true, s.filter (fun e => !(e.1 == path)))
      else (false, s) }

/-- The disk under `/music`: the directory `sub` with two tracks, and three files. -/
def sampleDisk : List (String × Bool) :=
  [("/music/sub", true), ("/music/sub/x.mp3", false), ("/music/sub/y.mp3", false),
   ("/music/other.mp3", false), ("/music/subway.mp3", false)]

/-- The entries of `/music` in the Entry Store; `gone.mp3` is no longer on the disk. -/
def sampleMusic : List DirectoryTrackFile :=
  [{ filePath := "/music/gone.mp3", fileName := "gone.mp3",
     isDirectory := false, isPlaylist := false },
   { filePath := "/music/other.mp3", fileName := "other.mp3",
     isDirectory := false, isPlaylist := false },
   { filePath := "/music/sub", fileName := "sub", isDirectory := true, isPlaylist := false },
   { filePath := "/music/subway.mp3", fileName := "subway.mp3",
     isDirectory := false, isPlaylist := false }]

/-- An index that opens, executes every statement, and holds four rows. -/
def sampleDb : Database :=
  { opens := true
    execOk := fun _ => true
    tracks := ["/music/sub/x.mp3", "/music/sub/y.mp3", "/music/other.mp3",
               "/music/subway.mp3"] }

/-- Modelled from the spec: the tables `PlaylistUtils::playlistsExtensions`,
`LibraryUtils::mimeTypesByExtension` and `LibraryUtils::videoMimeTypesByExtension` are
not part of the sources; in this sample `m3u` and `pls` are playlist extensions,
`mp3` and `flac` files are audio and `avi` files are video. -/
def sampleClassifier : Classifier :=
  { mimeTypeForFile := fun info =>
      if info.suffix = "mp3" then "audio/mpeg"
      else if info.suffix = "flac" then "audio/flac"
      else if info.suffix = "avi" then "video/x-msvideo"
      else if info.suffix = "m3u" then "audio/x-mpegurl"
      else "application/octet-stream"
    playlistsExtensions := ["m3u", "pls"]
    mimeTypesByExtension := ["audio/mpeg", "audio/flac"]
    videoMimeTypesByExtension := ["video/x-msvideo"] }

/-- A child `name` of directory `dir` as `QFileInfo` reports it. -/
def sampleInfo (dir name suffix : String) (isDir : Bool) : FileInfo :=
  { filePath := dir ++ "/" ++ name, fileName := name, suffix := suffix, isDir := isDir }

/-- The listing `a.mp3`, `b.avi`, `sub/`, `c.m3u` of directory `/music`. -/
def sampleListing : List FileInfo :=
  [sampleInfo "/music" "a.mp3" "mp3" false, sampleInfo "/music" "b.avi" "avi" false,
   sampleInfo "/music" "sub" "" true, sampleInfo "/music" "c.m3u" "m3u" false]

/-- A Qt environment in which every directory below `/music` is readable and already
absolute, and the home location is `/home/user`. -/
def sampleEnv : DirEnv :=
  { isReadable := fun d => "/music".data.isPrefixOf d.data
    absolutePath := fun d => d
    homeLocation := "/home/user" }

/-- A track `name` of directory `/music/a`. -/
def sampleTrack (name : String) : DirectoryTrackFile :=
  { filePath := "/music/a/" ++ name, fileName := name, isDirectory := false, isPlaylist := false }

/-- A model showing `/music/a` with two tracks while a delete of row 0 is in flight. -/
def sampleRemoving : DirectoryTracksModel :=
  { mDirectory := "/music/a", mLoaded := true, mRemovingFiles := true,
    mShowVideoFiles := false,
    mFiles := [sampleTrack "x.mp3", sampleTrack "y.mp3"],
    emitted := [], scans := [],
    removals := [{ indexes := [0],
                   filesAtDispatch := [sampleTrack "x.mp3", sampleTrack "y.mp3"] }] }

/-- A loaded model showing `/music/a` with three tracks and nothing in flight. -/
def sampleReady : DirectoryTracksModel :=
  { mDirectory := "/music/a", mLoaded := true, mRemovingFiles := false,
    mShowVideoFiles := false,
    mFiles := [sampleTrack "x.mp3", sampleTrack "y.mp3", sampleTrack "z.mp3"],
    emitted := [], scans := [], removals := [] }

/-- A loaded model showing `/music` (the entries of `sampleMusic`), nothing in flight. -/
def sampleMusicModel : DirectoryTracksModel :=
  { mDirectory := "/music", mLoaded := true, mRemovingFiles := false,
    mShowVideoFiles := false, mFiles := sampleMusic,
    emitted := [], scans := [], removals := [] }

/-- The listing of `/music/a`: `x.mp3`, `y.mp3`. -/
def listingA : List FileInfo :=
  [sampleInfo "/music/a" "x.mp3" "mp3" false, sampleInfo "/music/a" "y.mp3" "mp3" false]

/-- The listing of `/music/b`: `k.mp3`, `l.mp3`. -/
def listingB : List FileInfo :=
  [sampleInfo "/music/b" "k.mp3" "mp3" false, sampleInfo "/music/b" "l.mp3" "mp3" false]

/-- The disk under `/music/a` and `/music/b`, two tracks each. -/
def sampleDiskAB : List (String × Bool) :=
  [("/music/a/x.mp3", false), ("/music/a/y.mp3", false),
   ("/music/b/k.mp3", false), ("/music/b/l.mp3", false)]

/-- The user opens `/music/a` and at once `/music/b`; the scan of `/music/a` finishes;
the user deletes row 0; the scan of `/music/b` finishes; the delete finishes, its worker
having removed row 0 (`/music/a/x.mp3`). -/
def overlappingScans : List Event :=
  [Event.setDirectory "/music/a", Event.setDirectory "/music/b",
   Event.scanComplete 0 listingA, Event.removeTracks [0],
   Event.scanComplete 0 listingB, Event.deleteComplete 0 [0]]

/-- The identity view of a store of `n` rows: visible row `i` is source row `i`, nothing
is selected, the counters are zero. -/
def sampleProxy (n : Nat) : DirectoryTracksProxyModel :=
  { rowCount := n, sourceIndex := fun i => (i : Int), selection := [],
    mDirectoriesCount := 0, mTracksCount := 0 }

/-- A store with a playlist, a directory and a track. -/
def sampleStore : List DirectoryTrackFile :=
  [{ filePath := "/music/c.m3u", fileName := "c.m3u", isDirectory := false, isPlaylist := true },
   { filePath := "/music/sub", fileName := "sub", isDirectory := true, isPlaylist := false },
   { filePath := "/music/a.mp3", fileName := "a.mp3", isDirectory := false, isPlaylist := false }]

/-! ## Erasing rows in descending order -/

theorem keep_all_of_lt (removed : List Int) (fs : List DirectoryTrackFile) :
    ∀ k : Nat, (∀ j ∈ removed, j < (k : Int)) →
      ((fs.enumFrom k).filter (fun p => decide ((p.1 : Int) ∉ removed))).map Prod.snd = fs := by
  induction fs with
  | nil => intro k _; rfl
  | cons a fs ih =>
    intro k h
    have hk : (k : Int) ∉ removed := fun hmem => by
      have := h _ hmem
      omega
    have ih1 := ih (k + 1) (fun j hj => by have := h j hj; push_cast; omega)
    simp only [List.enumFrom_cons, List.filter_cons, hk, not_false_eq_true, decide_True,
      if_true, List.map_cons, ih1]

theorem keep_eraseIdx (rest : List Int) (fs : List DirectoryTrackFile) :
    ∀ (k i : Nat), i < fs.length → (∀ j ∈ rest, j < ((k + i : Nat) : Int)) →
      (((fs.eraseIdx i).enumFrom k).filter (fun p => decide ((p.1 : Int) ∉ rest))).map Prod.snd
        = ((fs.enumFrom k).filter
            (fun p => decide ((p.1 : Int) ∉ ((k + i : Nat) : Int) :: rest))).map Prod.snd := by
  induction fs with
  | nil => intro k i hi; simp at hi
  | cons a fs ih =>
    intro k i hi h
    cases i with
    | zero =>
      have h1 : ∀ j ∈ rest, j < ((k + 1 : Nat) : Int) := fun j hj => by
        have := h j hj
        push_cast at this ⊢
        omega
      have h2 : ∀ j ∈ ((k : Int) :: rest), j < ((k + 1 : Nat) : Int) := by
        intro j hj
        rcases List.mem_cons.1 hj with rfl | hj
        · push_cast; omega
        · exact h1 j hj
      have h3 : ∀ j ∈ rest, j < (k : Int) := fun j hj => by
        have := h j hj
        push_cast at this
        omega
      have hmem : (k : Int) ∈ (k : Int) :: rest := List.mem_cons_self _ _
      simp only [List.eraseIdx_cons_zero, Nat.add_zero, List.enumFrom_cons, List.filter_cons,
        hmem, not_true_eq_false, decide_False, Bool.false_eq_true, if_false]
      rw [keep_all_of_lt rest fs k h3]
      exact (keep_all_of_lt ((k : Int) :: rest) fs (k + 1) h2).symm
    | succ i =>
      have hi1 : i < fs.length := by simpa using hi
      have hidx : ((k + (i + 1) : Nat) : Int) = ((k + 1 + i : Nat) : Int) := by
        push_cast; omega
      have ih1 := ih (k + 1) i hi1 (fun j hj => by
        have := h j hj
        rw [hidx] at this
        exact this)
      have hne : (k : Int) ≠ ((k + (i + 1) : Nat) : Int) := by push_cast; omega
      rw [hidx] at hne ⊢
      by_cases hk : (k : Int) ∈ rest
      · have hmem : (k : Int) ∈ ((k + 1 + i : Nat) : Int) :: rest := List.mem_cons_of_mem _ hk
        simp only [List.eraseIdx_cons_succ, List.enumFrom_cons, List.filter_cons,
          hk, hmem, not_true_eq_false, decide_False, Bool.false_eq_true, if_false]
        exact ih1
      · have hmem : (k : Int) ∉ ((k + 1 + i : Nat) : Int) :: rest := fun hm => by
          rcases List.mem_cons.1 hm with h1 | h1
          · exact hne h1
          · exact hk h1
        simp only [List.eraseIdx_cons_succ, List.enumFrom_cons, List.filter_cons,
          hk, hmem, not_false_eq_true, decide_True, if_true, List.map_cons]
        rw [ih1]

theorem withoutRows_cons (files : List DirectoryTrackFile) (index : Int) (rest : List Int)
    (h0 : 0 ≤ index) (hlt : index < (files.length : Int)) (hrest : ∀ j ∈ rest, j < index) :
    withoutRows (files.eraseIdx index.toNat) rest = withoutRows files (index :: rest) := by
  have hi : index.toNat < files.length := by omega
  have hcast : ((0 + index.toNat : Nat) : Int) = index := by
    push_cast; omega
  have := keep_eraseIdx rest files 0 index.toNat hi (fun j hj => by
    rw [hcast]; exact hrest j hj)
  rw [hcast] at this
  exact this

theorem eraseRows_descending (removed : List Int) :
    ∀ (files : List DirectoryTrackFile) (emitted : List Signal),
      removed.Sorted (fun a b => a > b) →
      (∀ i ∈ removed, 0 ≤ i ∧ i < (files.length : Int)) →
      eraseRows removed (files, emitted)
        = some (withoutRows files removed,
                emitted ++ removed.map (fun i => Signal.rowsRemoved i i)) := by
  induction removed with
  | nil =>
    intro files emitted _ _
    have h := keep_all_of_lt [] files 0 (fun j hj => by simp at hj)
    simp only [eraseRows, withoutRows, List.enum, List.map_nil, List.append_nil, h]
  | cons index rest ih =>
    intro files emitted hs hv
    have hidx := hv index (List.mem_cons_self _ _)
    have hrest : ∀ j ∈ rest, j < index := fun j hj => List.rel_of_sorted_cons hs j hj
    have hlen : ((files.eraseIdx index.toNat).length : Int) = (files.length : Int) - 1 := by
      have : index.toNat < files.length := by omega
      rw [List.length_eraseIdx, if_pos this]
      omega
    have hv1 : ∀ i ∈ rest, 0 ≤ i ∧ i < ((files.eraseIdx index.toNat).length : Int) := by
      intro i hi
      have h1 := hv i (List.mem_cons_of_mem _ hi)
      have h2 := hrest i hi
      rw [hlen]
      omega
    have step := ih (files.eraseIdx index.toNat)
      (emitted ++ [Signal.rowsRemoved index index]) (List.Sorted.of_cons hs) hv1
    rw [eraseRows, if_pos hidx, step, withoutRows_cons files index rest hidx.1 hidx.2 hrest]
    simp

theorem withoutRows_nil (files : List DirectoryTrackFile) : withoutRows files [] = files := by
  have h := keep_all_of_lt [] files 0 (fun j hj => by simp at hj)
  simp only [withoutRows, List.enum, h]

theorem withoutRows_length (removed : List Int) :
    ∀ files : List DirectoryTrackFile,
      removed.Sorted (fun a b => a > b) →
      (∀ i ∈ removed, 0 ≤ i ∧ i < (files.length : Int)) →
      (withoutRows files removed).length + removed.length = files.length := by
  induction removed with
  | nil => intro files _ _; simp [withoutRows_nil]
  | cons index rest ih =>
    intro files hs hv
    have hidx := hv index (List.mem_cons_self _ _)
    have hrest : ∀ j ∈ rest, j < index := fun j hj => List.rel_of_sorted_cons hs j hj
    have hpos : index.toNat < files.length := by omega
    have hlen : (files.eraseIdx index.toNat).length = files.length - 1 := by
      rw [List.length_eraseIdx, if_pos hpos]
    have hv1 : ∀ i ∈ rest, 0 ≤ i ∧ i < ((files.eraseIdx index.toNat).length : Int) := by
      intro i hi
      have h1 := hv i (List.mem_cons_of_mem _ hi)
      have h2 := hrest i hi
      rw [hlen]
      omega
    have step := ih (files.eraseIdx index.toNat) (List.Sorted.of_cons hs) hv1
    rw [← withoutRows_cons files index rest hidx.1 hidx.2 hrest, List.length_cons]
    omega

theorem withoutRows_sublist (files : List DirectoryTrackFile) (removed : List Int) :
    List.Sublist (withoutRows files removed) files := by
  have h1 : List.Sublist (files.enum.filter (fun p => decide ((p.1 : Int) ∉ removed)))
      files.enum := List.filter_sublist _
  have h2 := h1.map Prod.snd
  have h3 : files.enum.map Prod.snd = files := List.enum_map_snd files
  rw [h3] at h2
  exact h2

theorem sortDescending_strict (indexes : List Int) (hnodup : indexes.Nodup) :
    (sortDescending indexes).Sorted (fun a b => a > b) := by
  have hs : (sortDescending indexes).Sorted (fun a b => a ≥ b) :=
    List.sorted_insertionSort (fun a b : Int => a ≥ b) indexes
  have hn : (sortDescending indexes).Nodup :=
    (List.perm_insertionSort (fun a b : Int => a ≥ b) indexes).nodup_iff.2 hnodup
  have hp : (sortDescending indexes).Pairwise (fun a b => a ≥ b ∧ a ≠ b) :=
    List.Pairwise.and hs hn
  exact hp.imp (fun {a b} h => lt_of_le_of_ne h.1 (Ne.symm h.2))

theorem mem_sortDescending (indexes : List Int) (i : Int) :
    i ∈ sortDescending indexes ↔ i ∈ indexes :=
  (List.perm_insertionSort (fun a b : Int => a ≥ b) indexes).mem_iff

theorem removeFinished_descending (m : DirectoryTracksModel) (removed : List Int)
    (hsorted : removed.Sorted (fun a b => a > b))
    (hvalid : ∀ i ∈ removed, 0 ≤ i ∧ i < (m.mFiles.length : Int)) :
    removeFinished removed m
      = some { m with
               mRemovingFiles := false
               mFiles := withoutRows m.mFiles removed
               emitted := m.emitted ++ [Signal.removingFilesChanged]
                 ++ removed.map (fun i => Signal.rowsRemoved i i)
                 ++ [Signal.databaseChanged] } := by
  unfold removeFinished
  rw [eraseRows_descending removed m.mFiles _ hsorted hvalid]

/-! ## Claims on the delete-completion handler -/

/-- C1: for every model and every list `removed` of valid indexes in strictly descending
order (the vector reported by the delete worker), the `finished` handler of the delete
watcher returns, and the Entry Store it leaves is the original one with exactly the
entries at those indexes taken out and every other entry kept in its original relative
order; it is a sub-sequence of the original store, shorter by the number of indexes. -/
theorem C1_removeFinished_removes_exactly (m : DirectoryTracksModel) (removed : List Int)
    (hsorted : removed.Sorted (fun a b => a > b))
    (hvalid : ∀ i ∈ removed, 0 ≤ i ∧ i < (m.mFiles.length : Int)) :
    ∃ m1, removeFinished removed m = some m1
      ∧ m1.mFiles = withoutRows m.mFiles removed
      ∧ List.Sublist m1.mFiles m.mFiles
      ∧ m1.mFiles.length + removed.length = m.mFiles.length := by
  refine ⟨_, removeFinished_descending m removed hsorted hvalid, rfl, ?_, ?_⟩
  · exact withoutRows_sublist m.mFiles removed
  · exact withoutRows_length removed m.mFiles hsorted hvalid

/-- C8: for every Entry Store of length n and every non-empty list of distinct indexes,
all within `0 .. n - 1`, erasing them one at a time in the descending order produced by
the worker's sort never erases out of range: the erase loop of the `finished` handler
runs to its end (an out-of-range erase is the only way for it to yield `none`). -/
theorem C8_erase_descending_in_range (files : List DirectoryTrackFile)
    (emitted : List Signal) (indexes : List Int)
    (hne : indexes ≠ []) (hnodup : indexes.Nodup)
    (hvalid : ∀ i ∈ indexes, 0 ≤ i ∧ i < (files.length : Int)) :
    (eraseRows (sortDescending indexes) (files, emitted)).isSome = true := by
  have _ := hne
  have hv : ∀ i ∈ sortDescending indexes, 0 ≤ i ∧ i < (files.length : Int) :=
    fun i hi => hvalid i ((mem_sortDescending indexes i).1 hi)
  rw [eraseRows_descending _ files emitted (sortDescending_strict indexes hnodup) hv]
  rfl

/-- Witness of C1: rows 2 and 0 of a three-row store are erased, row 1 stays. -/
theorem C1_removeFinished_removes_exactly_witness :
    ∃ m1, removeFinished [2, 0] sampleReady = some m1
      ∧ m1.mFiles = withoutRows sampleReady.mFiles [2, 0]
      ∧ List.Sublist m1.mFiles sampleReady.mFiles
      ∧ m1.mFiles.length + [(2 : Int), 0].length = sampleReady.mFiles.length :=
  C1_removeFinished_removes_exactly sampleReady [2, 0] (by decide) (by decide)

/-- Witness of C8: the request `[0, 2]` on a three-row store. -/
theorem C8_erase_descending_in_range_witness :
    (eraseRows (sortDescending [0, 2]) (sampleReady.mFiles, [])).isSome = true :=
  C8_erase_descending_in_range sampleReady.mFiles [] [0, 2] (by decide) (by decide)
    (by decide)

/-! ## Claims on `setDirectory` -/

theorem setDirectory_mDirectory (env : DirEnv) (newDirectory : String)
    (m : DirectoryTracksModel) :
    (setDirectory env newDirectory m).mDirectory = resolveDirectory env newDirectory := by
  unfold setDirectory
  by_cases h : resolveDirectory env newDirectory = m.mDirectory
  · simp [h]
  · have hb : (resolveDirectory env newDirectory != m.mDirectory) = true := by simpa using h
    simp only [hb, if_true]
    unfold loadDirectory
    by_cases hr : m.mRemovingFiles = true
    · simp [hr]
    · simp [hr]

theorem setDirectory_same (env : DirEnv) (newDirectory : String) (m : DirectoryTracksModel)
    (h : resolveDirectory env newDirectory = m.mDirectory) :
    setDirectory env newDirectory m = m := by
  simp [setDirectory, h]

theorem setDirectory_scans_length (env : DirEnv) (newDirectory : String)
    (m : DirectoryTracksModel) :
    (setDirectory env newDirectory m).scans.length ≤ m.scans.length + 1 := by
  unfold setDirectory
  by_cases h : resolveDirectory env newDirectory = m.mDirectory
  · simp [h]
  · have hb : (resolveDirectory env newDirectory != m.mDirectory) = true := by simpa using h
    simp only [hb, if_true]
    unfold loadDirectory
    by_cases hr : m.mRemovingFiles = true
    · simp [hr]
    · simp [hr]

/-- C3 fails on the code: with a delete of row 0 in flight and `/music/a` shown,
`setDirectory("/music/b")` stores `/music/b` as the current directory and emits
`directoryChanged` before `loadDirectory` refuses the scan. Once the delete has
completed, the model shows directory `/music/b`, loaded, over the remaining row of
`/music/a`, with no scan in flight, and a further `setDirectory("/music/b")` finds the
path unchanged and loads nothing. -/
theorem C3_setDirectory_during_delete_changes_path :
    sampleRemoving.mRemovingFiles = true
      ∧ sampleRemoving.mDirectory = "/music/a"
      ∧ (setDirectory sampleEnv "/music/b" sampleRemoving).mDirectory = "/music/b"
      ∧ (setDirectory sampleEnv "/music/b" sampleRemoving).emitted
          = sampleRemoving.emitted ++ [Signal.directoryChanged]
      ∧ (setDirectory sampleEnv "/music/b" sampleRemoving).scans = []
      ∧ (run sampleEnv sampleClassifier sampleRemoving
            [Event.setDirectory "/music/b", Event.deleteComplete 0 [0],
             Event.setDirectory "/music/b"]).map
          (fun m => (m.mDirectory, m.mLoaded, m.mRemovingFiles,
                     m.mFiles.map (fun f => f.filePath), m.scans))
        = some ("/music/b", true, false, ["/music/a/y.mp3"], []) := by
  decide

/-- C10: for every controller state and all requested paths X and Y with the same resolved
path (the absolute path, or the home location when the directory is unreadable), calling
`setDirectory(Y)` right after `setDirectory(X)` is a no-op: the state after the second
call, emitted signals and scans in flight included, is the state after the first call, so
the two calls together dispatch at most the one scan of the first call. -/
theorem C10_setDirectory_twice (env : DirEnv) (m : DirectoryTracksModel) (x y : String)
    (h : resolveDirectory env x = resolveDirectory env y) :
    setDirectory env y (setDirectory env x m) = setDirectory env x m
      ∧ (setDirectory env y (setDirectory env x m)).emitted = (setDirectory env x m).emitted
      ∧ (setDirectory env y (setDirectory env x m)).scans = (setDirectory env x m).scans
      ∧ (setDirectory env y (setDirectory env x m)).scans.length ≤ m.scans.length + 1 := by
  have hsame : setDirectory env y (setDirectory env x m) = setDirectory env x m :=
    setDirectory_same env y _ (by rw [setDirectory_mDirectory, h])
  refine ⟨hsame, ?_, ?_, ?_⟩
  · rw [hsame]
  · rw [hsame]
  · rw [hsame]
    exact setDirectory_scans_length env x m

/-- Witness of C10: two unreadable directories, both resolved to the home location. -/
theorem C10_setDirectory_twice_witness :
    setDirectory sampleEnv "/nope" (setDirectory sampleEnv "/gone" sampleReady)
        = setDirectory sampleEnv "/gone" sampleReady
      ∧ (setDirectory sampleEnv "/nope" (setDirectory sampleEnv "/gone" sampleReady)).emitted
          = (setDirectory sampleEnv "/gone" sampleReady).emitted
      ∧ (setDirectory sampleEnv "/nope" (setDirectory sampleEnv "/gone" sampleReady)).scans
          = (setDirectory sampleEnv "/gone" sampleReady).scans
      ∧ (setDirectory sampleEnv "/nope" (setDirectory sampleEnv "/gone" sampleReady)).scans.length
          ≤ sampleReady.scans.length + 1 :=
  C10_setDirectory_twice sampleEnv sampleReady "/gone" "/nope" (by decide)

/-! ## Claims on the scan worker -/

theorem scanStep_eq (c : Classifier) (showVideoFiles : Bool) (files : List DirectoryTrackFile)
    (info : FileInfo) :
    scanStep c showVideoFiles files info
      = files ++ (scanEntry c showVideoFiles info).toList := by
  unfold scanStep scanEntry isPlaylistFile isAudioFile isVideoFile
  by_cases hd : info.isDir = true
  · simp [hd]
  · simp only [hd, Bool.false_eq_true, if_false]
    split <;> simp

theorem foldl_scanStep (c : Classifier) (showVideoFiles : Bool) (fileInfos : List FileInfo) :
    ∀ files : List DirectoryTrackFile,
      fileInfos.foldl (scanStep c showVideoFiles) files
        = files ++ fileInfos.filterMap (scanEntry c showVideoFiles) := by
  induction fileInfos with
  | nil => intro files; simp
  | cons info rest ih =>
    intro files
    rw [List.foldl_cons, ih, scanStep_eq]
    cases h : scanEntry c showVideoFiles info <;> simp [List.filterMap_cons, h]

theorem scanEntry_flags (c : Classifier) (includeVideo : Bool) (info : FileInfo)
    (file : DirectoryTrackFile) (h : scanEntry c includeVideo info = some file) :
    file.filePath = info.filePath ∧ ¬ (file.isDirectory = true ∧ file.isPlaylist = true) := by
  unfold scanEntry at h
  split at h
  · cases h; simp
  · split at h
    · cases h; simp
    · cases h

theorem filterMap_paths_sublist (c : Classifier) (includeVideo : Bool)
    (fileInfos : List FileInfo) :
    List.Sublist ((fileInfos.filterMap (scanEntry c includeVideo)).map (fun f => f.filePath))
      (fileInfos.map (fun info => info.filePath)) := by
  induction fileInfos with
  | nil => simp
  | cons info rest ih =>
    cases h : scanEntry c includeVideo info with
    | none =>
      simp only [List.filterMap_cons, h, List.map_cons]
      exact List.Sublist.cons _ ih
    | some file =>
      simp only [List.filterMap_cons, h, List.map_cons]
      rw [(scanEntry_flags c includeVideo info file h).1]
      exact List.Sublist.cons₂ _ ih

/-- C7: for every enumerated child list and every `includeVideo` flag the scan lambda
returns the children mapped, in enumeration order, by the rule of the spec (a directory
gives `isDirectory = true, isPlaylist = false`; another child is kept with
`isDirectory = false` and its playlist classification iff it is a playlist, or audio, or
video with `includeVideo`); the returned paths are a sub-sequence of the enumerated
ones, no returned entry has both flags, and with video off the listing `a.mp3`, `b.avi`,
`sub/`, `c.m3u` gives `a.mp3` (track), `sub` (directory), `c.m3u` (playlist). -/
theorem C7_scanWorker_classifies (c : Classifier) (includeVideo : Bool)
    (fileInfos : List FileInfo) :
    scanWorker c includeVideo fileInfos = fileInfos.filterMap (scanEntry c includeVideo)
      ∧ List.Sublist ((scanWorker c includeVideo fileInfos).map (fun f => f.filePath))
          (fileInfos.map (fun info => info.filePath))
      ∧ (∀ file ∈ scanWorker c includeVideo fileInfos,
          ¬ (file.isDirectory = true ∧ file.isPlaylist = true))
      ∧ scanWorker sampleClassifier false sampleListing
          = [{ filePath := "/music/a.mp3", fileName := "a.mp3",
               isDirectory := false, isPlaylist := false },
             { filePath := "/music/sub", fileName := "sub",
               isDirectory := true, isPlaylist := false },
             { filePath := "/music/c.m3u", fileName := "c.m3u",
               isDirectory := false, isPlaylist := true }] := by
  have heq : scanWorker c includeVideo fileInfos
      = fileInfos.filterMap (scanEntry c includeVideo) := by
    unfold scanWorker
    rw [foldl_scanStep]
    simp
  refine ⟨heq, ?_, ?_, by decide⟩
  · rw [heq]
    exact filterMap_paths_sublist c includeVideo fileInfos
  · intro file hfile
    rw [heq] at hfile
    obtain ⟨info, _, hinfo⟩ := List.mem_filterMap.1 hfile
    exact (scanEntry_flags c includeVideo info file hinfo).2

/-! ## Claims on the filtered view -/

theorem fileAt_valid (files : List DirectoryTrackFile) (src : Int)
    (h : 0 ≤ src ∧ src < (files.length : Int)) :
    ∃ file, fileAt files src = some file := by
  have hlt : src.toNat < files.length := by omega
  exact ⟨files[src.toNat], by simp [fileAt, h.1, List.getElem?_eq_getElem hlt]⟩

theorem countP_add_countP_not (q : Int → Bool) (l : List Int) :
    l.countP q + l.countP (fun a => !q a) = l.length := by
  induction l with
  | nil => rfl
  | cons a l ih =>
    cases h : q a <;> simp [List.countP_cons, h] <;> omega

theorem foldlM_updateCountStep (files : List DirectoryTrackFile) (sourceIndex : Nat → Int)
    (rows : List Nat) :
    ∀ counts : Int × Int,
      (∀ i ∈ rows, 0 ≤ sourceIndex i ∧ sourceIndex i < (files.length : Int)) →
      rows.foldlM (updateCountStep files sourceIndex) counts
        = some (counts.1 + ((rows.map sourceIndex).countP (rowIsDirectory files) : Nat),
                counts.2
                  + ((rows.map sourceIndex).countP (fun src => !rowIsDirectory files src) : Nat))
    := by
  induction rows with
  | nil => intro counts _; simp
  | cons i rest ih =>
    intro counts hv
    obtain ⟨file, hfile⟩ := fileAt_valid files (sourceIndex i) (hv i (List.mem_cons_self _ _))
    have hrest : ∀ j ∈ rest, 0 ≤ sourceIndex j ∧ sourceIndex j < (files.length : Int) :=
      fun j hj => hv j (List.mem_cons_of_mem _ hj)
    have hdir : rowIsDirectory files (sourceIndex i) = file.isDirectory := by
      simp [rowIsDirectory, hfile]
    cases hd : file.isDirectory with
    | true =>
      have hstep : updateCountStep files sourceIndex counts i
          = some (counts.1 + 1, counts.2) := by
        simp [updateCountStep, hfile, hd]
      rw [List.foldlM_cons, hstep]
      simp only [Option.bind_eq_bind, Option.some_bind]
      rw [ih _ hrest]
      simp only [List.map_cons, List.countP_cons, hdir, hd]
      simp only [Bool.not_true, Bool.false_eq_true, if_false, if_true, Nat.add_zero]
      congr 2
      push_cast
      omega
    | false =>
      have hstep : updateCountStep files sourceIndex counts i
          = some (counts.1, counts.2 + 1) := by
        simp [updateCountStep, hfile, hd]
      rw [List.foldlM_cons, hstep]
      simp only [Option.bind_eq_bind, Option.some_bind]
      rw [ih _ hrest]
      simp only [List.map_cons, List.countP_cons, hdir, hd]
      simp only [Bool.not_false, Bool.false_eq_true, if_false, if_true, Nat.add_zero]
      congr 2
      push_cast
      omega

/-- C9: for every Entry Store and every view whose visible rows map to entries of the
store, the count update returns, leaves the rows of the view as they are, and sets
`directoriesCount` to the number of visible rows whose entry is a directory and
`tracksCount` to the number of the other visible rows, so that
`directoriesCount + tracksCount = rowCount()`. -/
theorem C9_updateCount_counts (files : List DirectoryTrackFile)
    (p : DirectoryTracksProxyModel)
    (hvalid : ∀ i, i < p.rowCount →
      0 ≤ p.sourceIndex i ∧ p.sourceIndex i < (files.length : Int)) :
    ∃ p1, updateCount files p = some p1
      ∧ p1.rowCount = p.rowCount
      ∧ visibleRows p1 = visibleRows p
      ∧ p1.mDirectoriesCount = ((visibleRows p).countP (rowIsDirectory files) : Nat)
      ∧ p1.mTracksCount
          = ((visibleRows p).countP (fun src => !rowIsDirectory files src) : Nat)
      ∧ p1.mDirectoriesCount + p1.mTracksCount = (p1.rowCount : Int) := by
  have hfold := foldlM_updateCountStep files p.sourceIndex (List.range p.rowCount) (0, 0)
    (fun i hi => hvalid i (List.mem_range.1 hi))
  have hsum := countP_add_countP_not (rowIsDirectory files) (visibleRows p)
  have hlen : (visibleRows p).length = p.rowCount := by simp [visibleRows]
  refine ⟨{ p with
      mDirectoriesCount := ((visibleRows p).countP (rowIsDirectory files) : Nat)
      mTracksCount := ((visibleRows p).countP (fun src => !rowIsDirectory files src) : Nat) },
    ?_, rfl, rfl, rfl, rfl, ?_⟩
  · simp only [updateCount, hfold, visibleRows, zero_add]
  · show (((visibleRows p).countP (rowIsDirectory files) : Nat) : Int)
        + (((visibleRows p).countP (fun src => !rowIsDirectory files src) : Nat) : Int)
      = (p.rowCount : Int)
    rw [← hlen, ← hsum]
    push_cast
    rfl

/-- Witness of C9: the identity view of a store with one directory and two other rows. -/
theorem C9_updateCount_counts_witness :
    ∃ p1, updateCount sampleStore (sampleProxy 3) = some p1
      ∧ p1.rowCount = (sampleProxy 3).rowCount
      ∧ visibleRows p1 = visibleRows (sampleProxy 3)
      ∧ p1.mDirectoriesCount
          = ((visibleRows (sampleProxy 3)).countP (rowIsDirectory sampleStore) : Nat)
      ∧ p1.mTracksCount
          = ((visibleRows (sampleProxy 3)).countP
              (fun src => !rowIsDirectory sampleStore src) : Nat)
      ∧ p1.mDirectoriesCount + p1.mTracksCount = (p1.rowCount : Int) :=
  C9_updateCount_counts sampleStore (sampleProxy 3) (by decide)

theorem rowPath_of_fileAt (files : List DirectoryTrackFile) (src : Int)
    (file : DirectoryTrackFile) (h : fileAt files src = some file) :
    rowPath files src = file.filePath := by
  simp [rowPath, h]

theorem removeLoop_attempts {σ : Type} (fs : FileSystem σ) (db : Database)
    (files : List DirectoryTrackFile) (indexes : List Int) :
    ∀ r : RemoveResult σ,
      (∀ i ∈ indexes, 0 ≤ i ∧ i < (files.length : Int)) →
      ∃ r1, removeLoop fs db files indexes r = some r1
        ∧ r1.removed = r.removed
            ++ ((deletionAttempts fs files indexes r.fs).filter
                  (fun a => a.succeeded)).map (fun a => a.index)
        ∧ r1.issued = r.issued
            ++ ((deletionAttempts fs files indexes r.fs).filter
                  (fun a => a.succeeded)).map
                  (fun a => removalStatement a.isDir (rowPath files a.index)) := by
  induction indexes with
  | nil => intro r _; exact ⟨r, rfl, by simp [deletionAttempts], by simp [deletionAttempts]⟩
  | cons index rest ih =>
    intro r hv
    obtain ⟨file, hf⟩ := fileAt_valid files index (hv index (List.mem_cons_self _ _))
    have hpath := rowPath_of_fileAt files index file hf
    have hrest : ∀ i ∈ rest, 0 ≤ i ∧ i < (files.length : Int) :=
      fun i hi => hv i (List.mem_cons_of_mem _ hi)
    rw [removeLoop]
    simp only [hf, deletionAttempts, hpath]
    generalize (if fs.isDir r.fs file.filePath = true
      then fs.removeRecursively r.fs file.filePath
      else fs.removeFile r.fs file.filePath) = outcome
    generalize fs.isDir r.fs file.filePath = isDir
    cases hok : outcome.1 with
    | false =>
      obtain ⟨r1, h1, h2, h3⟩ := ih { r with fs := outcome.2 } hrest
      refine ⟨r1, ?_, ?_, ?_⟩
      · simp only [Bool.not_false, if_true]
        exact h1
      · rw [h2]; simp [List.filter_cons]
      · rw [h3]; simp [List.filter_cons]
    | true =>
      obtain ⟨r1, h1, h2, h3⟩ := ih
        { removed := r.removed ++ [index]
          fs := outcome.2
          tracks := if db.execOk (removalStatement isDir file.filePath)
            then (removalStatement isDir file.filePath).exec r.tracks else r.tracks
          issued := r.issued ++ [removalStatement isDir file.filePath] } hrest
      refine ⟨r1, ?_, ?_, ?_⟩
      · simp only [Bool.not_true, Bool.false_eq_true, if_false]
        exact h1
      · rw [h2]; simp [List.filter_cons]
      · rw [h3]; simp [List.filter_cons, hpath]

theorem deletionAttempts_indexes {σ : Type} (fs : FileSystem σ)
    (files : List DirectoryTrackFile) (indexes : List Int) :
    ∀ s : σ, (deletionAttempts fs files indexes s).map (fun a => a.index) = indexes := by
  induction indexes with
  | nil => intro s; rfl
  | cons index rest ih => intro s; simp [deletionAttempts, ih]

theorem removeLoop_total {σ : Type} (fs : FileSystem σ) (db : Database)
    (files : List DirectoryTrackFile) (indexes : List Int) :
    ∀ r : RemoveResult σ,
      (∀ i ∈ indexes, 0 ≤ i ∧ i < (files.length : Int)) →
      ∃ r1 kept, removeLoop fs db files indexes r = some r1
        ∧ r1.removed = r.removed ++ kept
        ∧ List.Sublist kept indexes
        ∧ r1.issued.length = r.issued.length + kept.length := by
  induction indexes with
  | nil => intro r _; exact ⟨r, [], rfl, by simp, List.Sublist.slnil, by simp⟩
  | cons index rest ih =>
    intro r hv
    obtain ⟨file, hf⟩ := fileAt_valid files index (hv index (List.mem_cons_self _ _))
    have hrest : ∀ i ∈ rest, 0 ≤ i ∧ i < (files.length : Int) :=
      fun i hi => hv i (List.mem_cons_of_mem _ hi)
    rw [removeLoop]
    simp only [hf]
    generalize (if fs.isDir r.fs file.filePath = true
      then fs.removeRecursively r.fs file.filePath
      else fs.removeFile r.fs file.filePath) = outcome
    generalize removalStatement (fs.isDir r.fs file.filePath) file.filePath = query
    cases hok : outcome.1 with
    | false =>
      obtain ⟨r1, kept, h1, h2, h3, h4⟩ := ih { r with fs := outcome.2 } hrest
      refine ⟨r1, kept, ?_, h2, List.Sublist.cons _ h3, h4⟩
      simp only [Bool.not_false, if_true]
      exact h1
    | true =>
      obtain ⟨r1, kept, h1, h2, h3, h4⟩ := ih
        { removed := r.removed ++ [index]
          fs := outcome.2
          tracks := if db.execOk query then query.exec r.tracks else r.tracks
          issued := r.issued ++ [query] } hrest
      refine ⟨r1, index :: kept, ?_, ?_, List.Sublist.cons₂ _ h3, ?_⟩
      · simp only [Bool.not_true, Bool.false_eq_true, if_false]
        exact h1
      · rw [h2]; simp
      · rw [h4]; simp only [List.length_append, List.length_cons, List.length_nil]; omega

theorem removeWorker_total {σ : Type} (fs : FileSystem σ) (db : Database)
    (files : List DirectoryTrackFile) (s : σ) (indexes : List Int)
    (hvalid : ∀ i ∈ indexes, 0 ≤ i ∧ i < (files.length : Int)) :
    ∃ r, removeWorker fs db files s indexes = some r
      ∧ List.Sublist r.removed (sortDescending indexes)
      ∧ r.issued.length = r.removed.length := by
  unfold removeWorker
  by_cases hopen : db.opens = true
  · have hv : ∀ i ∈ sortDescending indexes, 0 ≤ i ∧ i < (files.length : Int) :=
      fun i hi => hvalid i ((mem_sortDescending indexes i).1 hi)
    obtain ⟨r, kept, h1, h2, h3, h4⟩ := removeLoop_total fs db files (sortDescending indexes)
      { removed := [], fs := s, tracks := db.tracks, issued := [] } hv
    simp only [List.nil_append] at h2
    refine ⟨r, ?_, ?_, ?_⟩
    · simp only [hopen, Bool.not_true, Bool.false_eq_true, if_false]
      exact h1
    · rw [h2]; exact h3
    · rw [h4, h2]; simp
  · have hclosed : db.opens = false := by simpa using hopen
    refine ⟨{ removed := [], fs := s, tracks := db.tracks, issued := [] }, ?_, ?_, ?_⟩
    · simp only [hclosed, Bool.not_false, if_true]
    · exact List.nil_sublist _
    · rfl

/-- C5: when the index connection opens, for every request list of indexes of the store
and every file system (every outcome of every deletion), the delete worker returns, and
it has attempted the deletion of every requested entry, in descending index order,
whatever the outcome of the attempts before; its result lists, in that descending
order, exactly the indexes whose attempt succeeded, all of them requested; and the
statements issued against the index are exactly one per successful attempt, in the same
order, so a failed entry is absent from the result and issues no statement. -/
theorem C5_removeWorker_returns_deleted {σ : Type} (fs : FileSystem σ) (db : Database)
    (files : List DirectoryTrackFile) (s : σ) (indexes : List Int)
    (hopen : db.opens = true)
    (hvalid : ∀ i ∈ indexes, 0 ≤ i ∧ i < (files.length : Int)) :
    ∃ r, removeWorker fs db files s indexes = some r
      ∧ (deletionAttempts fs files (sortDescending indexes) s).map (fun a => a.index)
          = sortDescending indexes
      ∧ r.removed
          = ((deletionAttempts fs files (sortDescending indexes) s).filter
              (fun a => a.succeeded)).map (fun a => a.index)
      ∧ r.removed.Sorted (fun a b => a ≥ b)
      ∧ List.Sublist r.removed (sortDescending indexes)
      ∧ (∀ i ∈ r.removed, i ∈ indexes)
      ∧ r.issued
          = ((deletionAttempts fs files (sortDescending indexes) s).filter
              (fun a => a.succeeded)).map
              (fun a => removalStatement a.isDir (rowPath files a.index))
      ∧ r.issued.length = r.removed.length := by
  have hv : ∀ i ∈ sortDescending indexes, 0 ≤ i ∧ i < (files.length : Int) :=
    fun i hi => hvalid i ((mem_sortDescending indexes i).1 hi)
  obtain ⟨r, h1, h2, h3⟩ := removeLoop_attempts fs db files (sortDescending indexes)
    { removed := [], fs := s, tracks := db.tracks, issued := [] } hv
  simp only [List.nil_append] at h2 h3
  have hworker : removeWorker fs db files s indexes = some r := by
    simp only [removeWorker, hopen, Bool.not_true, Bool.false_eq_true, if_false]
    exact h1
  have hsub : List.Sublist r.removed (sortDescending indexes) := by
    have hs : List.Sublist
        ((deletionAttempts fs files (sortDescending indexes) s).filter (fun a => a.succeeded))
        (deletionAttempts fs files (sortDescending indexes) s) := List.filter_sublist _
    have hm := hs.map (fun a => a.index)
    rw [deletionAttempts_indexes] at hm
    rw [h2]
    exact hm
  refine ⟨r, hworker, deletionAttempts_indexes fs files _ s, h2, ?_, hsub, ?_, h3, ?_⟩
  · exact List.Pairwise.sublist hsub
      (List.sorted_insertionSort (fun a b : Int => a ≥ b) indexes)
  · intro i hi
    exact (mem_sortDescending indexes i).1 (hsub.subset hi)
  · rw [h3, h2]; simp

/-- Witness of C5: on the sample disk the request `[0, 1, 1, 2]` names `gone.mp3`, which
is not on the disk, `other.mp3` twice, and the directory `sub`. -/
theorem C5_removeWorker_returns_deleted_witness :
    ∃ r, removeWorker sampleFs sampleDb sampleMusic sampleDisk [0, 1, 1, 2] = some r
      ∧ (deletionAttempts sampleFs sampleMusic (sortDescending [0, 1, 1, 2]) sampleDisk).map
            (fun a => a.index)
          = sortDescending [0, 1, 1, 2]
      ∧ r.removed
          = ((deletionAttempts sampleFs sampleMusic (sortDescending [0, 1, 1, 2])
                sampleDisk).filter (fun a => a.succeeded)).map (fun a => a.index)
      ∧ r.removed.Sorted (fun a b => a ≥ b)
      ∧ List.Sublist r.removed (sortDescending [0, 1, 1, 2])
      ∧ (∀ i ∈ r.removed, i ∈ [(0 : Int), 1, 1, 2])
      ∧ r.issued
          = ((deletionAttempts sampleFs sampleMusic (sortDescending [0, 1, 1, 2])
                sampleDisk).filter (fun a => a.succeeded)).map
              (fun a => removalStatement a.isDir (rowPath sampleMusic a.index))
      ∧ r.issued.length = r.removed.length :=
  C5_removeWorker_returns_deleted sampleFs sampleDb sampleMusic sampleDisk [0, 1, 1, 2]
    rfl (by decide)

/-- The run behind the witness of C5: `sub` and the first `other.mp3` are deleted, the
second attempt on `other.mp3` and the attempt on `gone.mp3` fail, and the worker returns
`[2, 1]` with one statement for each. -/
theorem removeWorker_sample_run :
    (removeWorker sampleFs sampleDb sampleMusic sampleDisk [0, 1, 1, 2]).map
        (fun r => (r.removed, r.issued))
      = some ([2, 1], [Statement.deleteWhereInstr "/music/sub/",
                       Statement.deleteWhereEquals "/music/other.mp3"])
    ∧ (deletionAttempts sampleFs sampleMusic (sortDescending [0, 1, 1, 2]) sampleDisk).map
        (fun a => (a.index, a.succeeded))
      = [(2, true), (1, true), (1, false), (0, false)] := by
  decide

/-! ## Claims on the index -/

theorem instrFrom_zero_or_le (y : List Char) (x : List Char) :
    ∀ pos : Nat, instrFrom y x pos = 0 ∨ pos ≤ instrFrom y x pos := by
  induction x with
  | nil =>
    intro pos
    unfold instrFrom
    split
    · exact Or.inr (Nat.le_refl _)
    · exact Or.inl rfl
  | cons c cs ih =>
    intro pos
    unfold instrFrom
    split
    · exact Or.inr (Nat.le_refl _)
    · rcases ih (pos + 1) with h | h
      · exact Or.inl h
      · exact Or.inr (by omega)

theorem instrFrom_eq_pos (y : List Char) (x : List Char) (pos : Nat) (hpos : 0 < pos) :
    instrFrom y x pos = pos ↔ y.isPrefixOf x = true := by
  cases x with
  | nil =>
    unfold instrFrom
    by_cases h : y.isPrefixOf [] = true
    · simp [h]
    · simp only [h, if_false, Bool.false_eq_true, iff_false]
      omega
  | cons c cs =>
    unfold instrFrom
    by_cases h : y.isPrefixOf (c :: cs) = true
    · simp [h]
    · simp only [h, if_false, Bool.false_eq_true, iff_false]
      rcases instrFrom_zero_or_le y cs (pos + 1) with h1 | h1 <;> omega

theorem instr_eq_one (x y : String) : instr x y = 1 ↔ y.data <+: x.data := by
  unfold instr
  rw [instrFrom_eq_pos y.data x.data 1 (by decide)]
  exact List.isPrefixOf_iff_prefix

theorem exec_deleteWhereInstr (tracks : List String) (bound : String) :
    (Statement.deleteWhereInstr bound).exec tracks
      = tracks.filter (fun row => decide (¬ bound.data <+: row.data)) := by
  unfold Statement.exec
  apply List.filter_congr
  intro row _
  have h := instr_eq_one row bound
  by_cases hp : bound.data <+: row.data
  · simp [Statement.selects, h.2 hp, hp]
  · have hne : instr row bound ≠ 1 := fun h1 => hp (h.1 h1)
    simp [Statement.selects, hne, hp]

theorem exec_directory (tracks : List String) (filePath : String) :
    (removalStatement true filePath).exec tracks
      = tracks.filter (fun row => decide (¬ (filePath ++ "/").data <+: row.data)) :=
  exec_deleteWhereInstr tracks (filePath ++ "/")

theorem exec_file (tracks : List String) (filePath : String) :
    (removalStatement false filePath).exec tracks
      = tracks.filter (fun row => decide (row ≠ filePath)) := by
  unfold Statement.exec
  apply List.filter_congr
  intro row _
  by_cases hp : row = filePath
  · simp [removalStatement, Statement.selects, hp]
  · simp [removalStatement, Statement.selects, hp]

theorem count_databaseChanged (emitted : List Signal) (removed : List Int) :
    (emitted ++ [Signal.removingFilesChanged]
        ++ removed.map (fun i => Signal.rowsRemoved i i)
        ++ [Signal.databaseChanged]).count Signal.databaseChanged
      = emitted.count Signal.databaseChanged + 1 := by
  have hnot : Signal.databaseChanged ∉ removed.map (fun i => Signal.rowsRemoved i i) := by
    simp
  simp [List.count_append, List.count_eq_zero_of_not_mem hnot, List.count_cons]

/-- C6: for every index table and every successfully deleted entry, the statement that
the worker executes deletes exactly the rows whose path starts with the directory's
path followed by `/` when the entry is a directory, and exactly the rows whose path is
the entry's path when it is a file; all other rows stay, in order. On the disk with
`sub/x.mp3`, `sub/y.mp3`, `other.mp3` and `subway.mp3`, deleting the row of `sub` leaves
the rows `other.mp3` and `subway.mp3`. The `finished` handler of a delete batch, for any
descending list of valid indexes, emits `databaseChanged` exactly once. -/
theorem C6_index_rows_removed (tracks : List String) (filePath : String)
    (m : DirectoryTracksModel) (removed : List Int)
    (hsorted : removed.Sorted (fun a b => a > b))
    (hvalid : ∀ i ∈ removed, 0 ≤ i ∧ i < (m.mFiles.length : Int)) :
    (removalStatement true filePath).exec tracks
        = tracks.filter (fun row => decide (¬ (filePath ++ "/").data <+: row.data))
      ∧ (removalStatement false filePath).exec tracks
        = tracks.filter (fun row => decide (row ≠ filePath))
      ∧ (removeWorker sampleFs sampleDb sampleMusic sampleDisk [2]).map
            (fun r => (r.removed, r.issued, r.tracks))
          = some ([2], [Statement.deleteWhereInstr "/music/sub/"],
              ["/music/other.mp3", "/music/subway.mp3"])
      ∧ (removeWorker sampleFs sampleDb sampleMusic sampleDisk [1]).map
            (fun r => (r.removed, r.issued, r.tracks))
          = some ([1], [Statement.deleteWhereEquals "/music/other.mp3"],
              ["/music/sub/x.mp3", "/music/sub/y.mp3", "/music/subway.mp3"])
      ∧ ∃ m1, removeFinished removed m = some m1
          ∧ m1.emitted.count Signal.databaseChanged
              = m.emitted.count Signal.databaseChanged + 1 := by
  refine ⟨exec_directory tracks filePath, exec_file tracks filePath, by decide, by decide,
    _, removeFinished_descending m removed hsorted hvalid, ?_⟩
  exact count_databaseChanged m.emitted removed

/-- Witness of C6: the delete batch that removed row 2 (`sub`) of `/music`. -/
theorem C6_index_rows_removed_witness :
    (removalStatement true "/music/sub").exec sampleDb.tracks
        = sampleDb.tracks.filter
            (fun row => decide (¬ ("/music/sub" ++ "/").data <+: row.data))
      ∧ (removalStatement false "/music/sub").exec sampleDb.tracks
        = sampleDb.tracks.filter (fun row => decide (row ≠ "/music/sub"))
      ∧ (removeWorker sampleFs sampleDb sampleMusic sampleDisk [2]).map
            (fun r => (r.removed, r.issued, r.tracks))
          = some ([2], [Statement.deleteWhereInstr "/music/sub/"],
              ["/music/other.mp3", "/music/subway.mp3"])
      ∧ (removeWorker sampleFs sampleDb sampleMusic sampleDisk [1]).map
            (fun r => (r.removed, r.issued, r.tracks))
          = some ([1], [Statement.deleteWhereEquals "/music/other.mp3"],
              ["/music/sub/x.mp3", "/music/sub/y.mp3", "/music/subway.mp3"])
      ∧ ∃ m1, removeFinished [2] sampleMusicModel = some m1
          ∧ m1.emitted.count Signal.databaseChanged
              = sampleMusicModel.emitted.count Signal.databaseChanged + 1 :=
  C6_index_rows_removed sampleDb.tracks "/music/sub" sampleMusicModel [2]
    (by decide) (by decide)

/-! ## The controller: scans and deletes in flight -/

/-- C2 fails on the code: after `setDirectory("/music/a")`, `setDirectory("/music/b")`,
the completion of the first scan and `removeTracks([0])`, the model is loaded and
removing, with the scan of `/music/b` and the delete both in flight; the worker deletes
`/music/a/x.mp3` and returns `[0]`; the second scan then completes and replaces the Entry
Store captured at the delete's dispatch, and the delete's completion erases row 0 of the
new store, `/music/b/k.mp3`, a file that is still on the disk. -/
theorem C2_scan_in_flight_during_delete :
    (run sampleEnv sampleClassifier (initialModel false) (overlappingScans.take 4)).map
        (fun m => (m.mLoaded, m.mRemovingFiles, m.scans, m.removals.map (fun j => j.indexes)))
      = some (true, true, [{ directory := "/music/b", showVideoFiles := false }], [[0]])
    ∧ (removeWorker sampleFs sampleDb (scanWorker sampleClassifier false listingA)
          sampleDiskAB [0]).map (fun r => (r.removed, r.fs.map (fun e => e.1)))
      = some ([0], ["/music/a/y.mp3", "/music/b/k.mp3", "/music/b/l.mp3"])
    ∧ (run sampleEnv sampleClassifier (initialModel false) (overlappingScans.take 5)).map
        (fun m => (m.mFiles.map (fun f => f.filePath),
                   m.removals.map (fun j => j.filesAtDispatch.map (fun f => f.filePath))))
      = some (["/music/b/k.mp3", "/music/b/l.mp3"], [["/music/a/x.mp3", "/music/a/y.mp3"]])
    ∧ (run sampleEnv sampleClassifier (initialModel false) overlappingScans).map
        (fun m => m.mFiles.map (fun f => f.filePath))
      = some ["/music/b/l.mp3"] := by
  decide

end Unplayer
